import Mathlib

/-!
Shallow embedding of the drawbridge server bootstrap (`src/main.rs`).

The visible source is the startup shell of a TLS-terminating service:

* an argument/config-file expansion loop (`main.rs` lines 82-93) that replaces
  every process argument starting with `'@'` by the lines of the named file,
  using Rust's `str::lines` semantics;
* a `clap`-derived argument parser for the `Args` struct (lines 28-72):
  long options `--addr`, `--store`, `--cert`, `--key`, `--ca`, `--oidc-label`,
  `--oidc-issuer`, `--oidc-client`, `--oidc-secret`, all but `--addr` and
  `--oidc-secret` required, `--addr` defaulting to `0.0.0.0:8080`;
* a startup pipeline (lines 95-127) that opens the certificate, key and CA
  files with distinct `anyhow` context messages, builds the TLS config and the
  app, and binds a TCP listener;
* an acceptor loop (lines 127-146) that processes the incoming-connection
  stream with `for_each_concurrent(Some(1), ...)` — a concurrency limit of
  exactly one, i.e. sequential processing — logging per-connection errors and
  never propagating them.

Strings are modelled by Lean `String` (a wrapper around `List Char`, matching
Rust's view of a `str` as a sequence of characters for the operations used
here).  External effects are modelled explicitly: the file system is a partial
map, `File::open`/TLS/app/bind success are boolean parameters, and the loop and
the startup pipeline produce explicit event traces.
-/

namespace Drawbridge

/-- Decidable equality for `Except` (used to evaluate the embedded functions
on concrete inputs). -/
instance {ε α : Type} [DecidableEq ε] [DecidableEq α] : DecidableEq (Except ε α) := fun x y =>
  match x, y with
  | .ok a, .ok b =>
    if h : a = b then .isTrue (h ▸ rfl) else .isFalse (fun hh => by cases hh; exact h rfl)
  | .error a, .error b =>
    if h : a = b then .isTrue (h ▸ rfl) else .isFalse (fun hh => by cases hh; exact h rfl)
  | .ok _, .error _ => .isFalse (fun hh => by cases hh)
  | .error _, .ok _ => .isFalse (fun hh => by cases hh)

/-! ### Rust `str::lines` (used on config-file content, `main.rs` line 88)

Rust's `str::lines` splits at every `'\n'`; a line terminated by `"\r\n"` also
loses the `'\r'`; a final fragment not terminated by `'\n'` is a line as is;
the empty final fragment after a terminating `'\n'` (and in particular the
whole empty string) yields no line. -/

/-- Remove one trailing carriage return, as `str::lines` does on a line that
was terminated by `'\n'`. -/
def stripCr (l : List Char) : List Char :=
  if l.getLast? = some '\r' then l.dropLast else l

/-- Worker for `rustLinesCore`: `acc` is the current (unterminated) line read
so far. -/
def linesAux : List Char → List Char → List (List Char)
  | acc, [] => if acc = [] then [] else [acc]
  | acc, c :: cs =>
    if c = '\n' then stripCr acc :: linesAux [] cs
    else linesAux (acc ++ [c]) cs

/-- Rust `str::lines` on a character sequence. -/
def rustLinesCore (s : List Char) : List (List Char) :=
  linesAux [] s

/-- Rust `str::lines` on a `String`, the form used by the config-file
expansion loop. -/
def rustLines (s : String) : List String :=
  (rustLinesCore s.data).map String.mk

/-! ### Argument / config-file expansion (`main.rs` lines 82-93) -/

/-- Rust `arg.strip_prefix('@')` from `main.rs` line 84: the remainder of the
argument when it starts with `'@'`, otherwise `none`. -/
def stripAt (a : String) : Option String :=
  match a.data with
  | [] => none
  | c :: rest => if c = '@' then some (String.mk rest) else none

/-- The expansion loop of `main` (`main.rs` lines 82-93).  `fs` models
`std::fs::read_to_string`: the content of each readable file.  An argument
starting with `'@'` is replaced by the lines of the named file; a read failure
aborts with the `anyhow` context message; every other argument is passed
through unchanged.  Lines of a file are inserted literally — the loop never
re-examines them for a leading `'@'`. -/
def expandArgs (fs : String → Option String) : List String → Except String (List String)
  | [] => .ok []
  | a :: rest =>
    match stripAt a with
    | some path =>
      match fs path with
      | none => .error ("Failed to read config file")
      | some c => do
        let r ← expandArgs fs rest
        .ok (rustLines c ++ r)
    | none => do
      let r ← expandArgs fs rest
      .ok (a :: r)

/-! ### The `clap`-derived argument parser for `Args` (`main.rs` lines 26-72,
`Args::parse_from` at line 95-105)

The parser itself lives in the external `clap` crate; what the source fixes is
the declarative `Args` struct: the set of long options, which are required,
the default for `--addr`, and the optionality of `--oidc-secret`.  The model
below implements standard long-option parsing for exactly that declaration:
`--flag value` and `--flag=value` forms, unknown options rejected, missing
required options collected into a usage error, `--addr` defaulting to
`0.0.0.0:8080`.  URL validation of `--oidc-issuer` (the external `url` crate)
is not embedded; the issuer is kept as the raw string.  IPv6 forms of
`--addr` are not modelled (no claim depends on address parsing). -/

/-- A socket address, as in `std::net::SocketAddr` restricted to IPv4. -/
structure SockAddr where
  ip : Nat × Nat × Nat × Nat
  port : Nat
  deriving DecidableEq, Repr

/-- The default bind address from `main.rs` line 35:
`SocketAddr::new(IpAddr::V4(Ipv4Addr::UNSPECIFIED), 8080)`. -/
def defaultAddr : SockAddr :=
  SockAddr.mk (0, 0, 0, 0) 8080

/-- The parsed configuration, mirroring the `Args` struct of `main.rs`
lines 28-72 (paths and the issuer URL kept as strings). -/
structure Args where
  addr : SockAddr
  store : String
  cert : String
  key : String
  ca : String
  oidc_label : String
  oidc_issuer : String
  oidc_client : String
  oidc_secret : Option String
  deriving DecidableEq, Repr

/-- The long-option names accepted by the parser (field names of `Args`,
underscores rendered as hyphens by `clap`). -/
def knownFlags : List String :=
  ["addr", "store", "cert", "key", "ca",
   "oidc-label", "oidc-issuer", "oidc-client", "oidc-secret"]

/-- The required long options: every field of `Args` without a default and
not an `Option` (`main.rs` lines 38-67). -/
def requiredFlags : List String :=
  ["store", "cert", "key", "ca", "oidc-label", "oidc-issuer", "oidc-client"]

/-- Raw option assignment built while scanning the token list: for each long
option name, the (last) value supplied for it, if any. -/
def RawOpts : Type := String → Option String

/-- No option seen yet. -/
def emptyOpts : RawOpts := fun _ => none

/-- Record a value for one long option. -/
def setOpt (o : RawOpts) (nm v : String) : RawOpts :=
  fun f => if f = nm then some v else o f

/-- Split a character sequence at the first `'='`: the inline-value form
`--flag=value` of a long option. -/
def splitEq : List Char → List Char × Option (List Char)
  | [] => ([], none)
  | c :: cs =>
    if c = '=' then ([], some cs)
    else ((c :: (splitEq cs).1), (splitEq cs).2)

/-- Recognise a long-option token: `--name` gives `(name, none)`,
`--name=value` gives `(name, some value)`; anything else is not an option
token. -/
def longFlag (t : String) : Option (String × Option String) :=
  match t.data with
  | c1 :: c2 :: rest =>
    if c1 = '-' ∧ c2 = '-' then
      some (String.mk (splitEq rest).1, ((splitEq rest).2).map String.mk)
    else none
  | _ => none

/-- Scan the token list, recording option values.  A long option takes its
value inline after `'='` or from the following token; a separate value token
may not itself start with `'-'` (standard `clap` behaviour); unknown options
and non-option tokens are usage errors (the `Args` struct declares no
positional arguments). -/
def collectOpts : List String → RawOpts → Except String RawOpts
  | [], o => .ok o
  | t :: rest, o =>
    match longFlag t with
    | none => .error (("unexpected argument ") ++ t)
    | some (nm, some v) =>
      if nm ∈ knownFlags then collectOpts rest (setOpt o nm v)
      else .error (("unexpected argument ") ++ t)
    | some (nm, none) =>
      if nm ∈ knownFlags then
        match rest with
        | [] => .error (("a value is required for --") ++ nm)
        | v :: rest2 =>
          if v.data.head? = some '-' then
            .error (("a value is required for --") ++ nm)
          else
            collectOpts rest2 (setOpt o nm v)
      else .error (("unexpected argument ") ++ t)

/-- Parse a decimal numeral. -/
def parseNatCore (cs : List Char) : Option Nat :=
  if cs = [] then none
  else
    cs.foldl
      (fun acc c => do
        let n ← acc
        if '0' ≤ c ∧ c ≤ '9' then pure (n * 10 + (c.toNat - 48)) else none)
      (some 0)

/-- Split a character sequence at every occurrence of `sep`. -/
def splitOnChar (sep : Char) : List Char → List (List Char)
  | [] => [[]]
  | c :: cs =>
    let r := splitOnChar sep cs
    if c = sep then [] :: r else (c :: r.headI) :: r.tail

/-- Parse an IPv4 socket address `a.b.c.d:port`, as `SocketAddr`'s `FromStr`
does for the IPv4 case. -/
def parseSockAddr (s : String) : Option SockAddr :=
  match splitOnChar ':' s.data with
  | [ipPart, portPart] =>
    match splitOnChar '.' ipPart with
    | [a, b, c, d] => do
      let a ← parseNatCore a
      let b ← parseNatCore b
      let c ← parseNatCore c
      let d ← parseNatCore d
      let p ← parseNatCore portPart
      if a ≤ 255 ∧ b ≤ 255 ∧ c ≤ 255 ∧ d ≤ 255 ∧ p ≤ 65535 then
        pure (SockAddr.mk (a, b, c, d) p)
      else none
    | _ => none
  | _ => none

/-- The required options for which no value was collected. -/
def missingRequired (o : RawOpts) : List String :=
  requiredFlags.filter (fun f => o f = none)

/-- Build the typed `Args` from the collected option values: all required
options must be present (`clap` reports the missing ones collectively as one
usage error); `--addr` falls back to `defaultAddr` (`main.rs` line 35) or must
parse as a socket address. -/
def finalize (o : RawOpts) : Except String Args :=
  if missingRequired o ≠ [] then
    .error (("the following required arguments were not provided: ") ++
      String.intercalate (", ") ((missingRequired o).map (fun f => ("--") ++ f)))
  else
    match o ("store"), o ("cert"), o ("key"), o ("ca"),
          o ("oidc-label"), o ("oidc-issuer"), o ("oidc-client") with
    | some store, some cert, some key, some ca, some lab, some iss, some cli =>
      match o ("addr") with
      | none =>
        .ok (Args.mk defaultAddr store cert key ca lab iss cli (o ("oidc-secret")))
      | some s =>
        match parseSockAddr s with
        | none => .error (("invalid value for --addr: ") ++ s)
        | some ad =>
          .ok (Args.mk ad store cert key ca lab iss cli (o ("oidc-secret")))
    | _, _, _, _, _, _, _ => .error ("missing required argument")

/-- `Args::parse_from(processed_args)` (`main.rs` line 105): the first token
is the binary name and is skipped; the rest is scanned and finalized. -/
def parseArgs (toks : List String) : Except String Args :=
  match collectOpts toks.tail emptyOpts with
  | .error e => .error e
  | .ok o => finalize o

/-- `t` supplies the long option `f`: either the separate-token form `--f`
or the inline form `--f=...`.  An argument list "omits" option `f` when no
token in it supplies `f`. -/
def introFlag (f t : String) : Prop :=
  t = ("--") ++ f ∨ (("--") ++ f ++ ("=")).data <+: t.data

instance (f t : String) : Decidable (introFlag f t) := by
  unfold introFlag; infer_instance

/-! ### Startup pipeline (`main.rs` lines 78-127) as an effect trace

`World` models the environment: config-file contents (`read_to_string`),
which paths `File::open` succeeds on, and whether the external TLS-config
construction, app construction and listener bind succeed.  `runMain` performs
the pipeline of `main` up to the acceptor loop, returning the ordered effect
trace together with the `anyhow::Result` outcome (`.error` means the process
prints the diagnostic and exits with non-zero status). -/

/-- Observable startup effects, in pipeline order. -/
inductive Effect
  | readConfig (path : String)
  | parseStep
  | openFile (which : String) (path : String)
  | tlsRead
  | appNew
  | bindListener (a : SockAddr)
  | acceptLoopStart
  deriving DecidableEq, Repr

/-- The environment of `main`. -/
structure World where
  fs : String → Option String
  openOk : String → Bool
  tlsOk : Bool
  appOk : Bool
  bindOk : Bool

/-- The `read_to_string` calls the expansion loop performs, in order,
stopping at the first failing one. -/
def configReads (fs : String → Option String) : List String → List Effect
  | [] => []
  | a :: rest =>
    match stripAt a with
    | none => configReads fs rest
    | some p =>
      Effect.readConfig p ::
        (if (fs p).isSome then configReads fs rest else [])

/-- The startup pipeline of `main` (`main.rs` lines 78-127): expand the
arguments, parse them, open the certificate, key and CA files (each failure
wrapped with its own `context` message, lines 107-109), construct the TLS
config (line 110), build the app (lines 112-123), bind the listener
(lines 124-126), and enter the acceptor loop. -/
def runMain (w : World) (argv : List String) : List Effect × Except String Unit :=
  let reads := configReads w.fs argv
  match expandArgs w.fs argv with
  | .error e => (reads, .error e)
  | .ok toks =>
    match parseArgs toks with
    | .error e => (reads ++ [Effect.parseStep], .error e)
    | .ok a =>
      let tr1 := reads ++ [Effect.parseStep, Effect.openFile ("server certificate") a.cert]
      if w.openOk a.cert = false then
        (tr1, .error ("Failed to open server certificate file"))
      else
        let tr2 := tr1 ++ [Effect.openFile ("server key") a.key]
        if w.openOk a.key = false then
          (tr2, .error ("Failed to open server key file"))
        else
          let tr3 := tr2 ++ [Effect.openFile ("CA certificate") a.ca]
          if w.openOk a.ca = false then
            (tr3, .error ("Failed to open CA certificate file"))
          else
            let tr4 := tr3 ++ [Effect.tlsRead]
            if w.tlsOk = false then
              (tr4, .error ("Failed to construct server TLS config"))
            else
              let tr5 := tr4 ++ [Effect.appNew]
              if w.appOk = false then
                (tr5, .error ("Failed to build app"))
              else
                let tr6 := tr5 ++ [Effect.bindListener a.addr]
                if w.bindOk = false then
                  (tr6, .error ("Failed to bind"))
                else
                  (tr6 ++ [Effect.acceptLoopStart], .ok ())

/-! ### The acceptor loop (`main.rs` lines 124-146)

The bound listener's `incoming()` stream is processed with
`for_each_concurrent(Some(1), ...)`: a concurrency limit of exactly one, so
the combinator drives at most one item's future at a time — the loop is
sequential, each item handled to completion before the next is taken.  The
model runs the loop body over a finite prefix of the incoming stream and
records the ordered trace of observable events.  The external
`app.handle(stream)` call is opaque; each accepted connection therefore
carries the result its handling would produce.  `anyhow` context errors are
rendered by their outermost context message, as `{e}` (`Display`) does. -/

/-- An accepted connection: its peer address (if `peer_addr()` succeeded) and
the result the external `app.handle` produces on it. -/
structure Conn where
  peer : Option String
  handleResult : Except String Unit
  deriving DecidableEq

/-- Observable events of the acceptor loop. -/
inductive Event
  | acceptItem (i : Nat)
  | logDebug (msg : String)
  | handlerBegin (i : Nat)
  | handlerEnd (i : Nat)
  | logError (msg : String)
  deriving DecidableEq, Repr

/-- The loop body (`main.rs` lines 128-144) on the `i`-th item of the
incoming stream.  An accept failure becomes the context error
`failed to initialize connection`, logged at error level; an accepted
connection is logged at debug level, handled by the external handler, and a
handler error is logged at error level with its message.  No branch produces
an error result: the body's error is consumed by the `if let Err` logging. -/
def connEvents (i : Nat) (item : Except String Conn) : List Event :=
  match item with
  | .error _ =>
    [Event.acceptItem i,
     Event.logError ("failed to handle request: failed to initialize connection")]
  | .ok c =>
    [Event.acceptItem i,
     Event.logDebug (("received TCP connection from ") ++
       c.peer.getD ("unknown address")),
     Event.handlerBegin i, Event.handlerEnd i] ++
    (match c.handleResult with
     | .ok _ => []
     | .error m => [Event.logError (("failed to handle request: ") ++ m)])

/-- The acceptor loop over a finite prefix of the incoming stream:
`for_each_concurrent(Some(1), ...)` processes the items one at a time, in
order, so the trace is the concatenation of the per-item traces.  The loop
itself yields no error: its result type is `Unit`. -/
def acceptorLoop (items : List (Except String Conn)) : List Event :=
  (items.enum).flatMap (fun p => connEvents p.1 p.2)

/-- Events marking the start or the end of a handler invocation. -/
def isHandlerEv : Event → Bool
  | Event.handlerBegin _ => true
  | Event.handlerEnd _ => true
  | _ => false

/-! ### Canonical line decompositions and concrete demonstration inputs -/

/-- A file written as the given lines, each terminated by `'\n'` (the usual
trailing-newline form of a text file). -/
def joinLinesNl (L : List String) : String :=
  String.mk (L.flatMap (fun l => l.data ++ ['\n']))

/-- Worker for `joinLinesSep`: lines separated by `'\n'`, no trailing
newline. -/
def joinSepCore : List (List Char) → List Char
  | [] => []
  | [l] => l
  | l :: L => l ++ '\n' :: joinSepCore L

/-- A file written as the given lines separated by `'\n'`, without a final
newline. -/
def joinLinesSep (L : List String) : String :=
  String.mk (joinSepCore (L.map String.data))

/-- A complete, valid token list for the parser (binary name first). -/
def demoToks : List String :=
  ["drawbridge", "--store", "/s", "--cert", "/c", "--key", "/k",
   "--ca", "/a", "--oidc-label", "l", "--oidc-issuer", "https://i",
   "--oidc-client", "c"]

/-- An environment with no readable config files and no openable paths. -/
def demoWorldNoFiles : World :=
  World.mk (fun _ => none) (fun _ => false) true true true

/-- A file system with one two-line config file. -/
def demoFsSplice : String → Option String :=
  fun p => if p = ("conf") then some ("--store\n/s") else none

/-- A file system in which the file `outer` has a line naming the readable
file `inner` with a leading `'@'`. -/
def demoFsNested : String → Option String :=
  fun p =>
    if p = ("outer") then some ("@inner\n--x")
    else if p = ("inner") then some ("ZZZ") else none

/-- A two-item incoming stream: an accept failure, then a connection whose
handling fails. -/
def demoItems : List (Except String Conn) :=
  [Except.error ("x"), Except.ok (Conn.mk none (Except.error ("boom")))]

/-! ## Lemmas about `str::lines` -/

theorem stripCr_of_no_cr {l : List Char} (h : l.getLast? ≠ some '\r') :
    stripCr l = l := by
  unfold stripCr; rw [if_neg h]

theorem linesAux_append_newline (l rest : List Char) (hl : '\n' ∉ l) :
    ∀ acc, linesAux acc (l ++ '\n' :: rest) = stripCr (acc ++ l) :: linesAux [] rest := by
  induction l with
  | nil => intro acc; simp [linesAux]
  | cons c l ih =>
    intro acc
    rw [List.mem_cons] at hl
    push_neg at hl
    obtain ⟨hc, hl'⟩ := hl
    simp only [List.cons_append, linesAux, if_neg (Ne.symm hc), List.append_eq]
    rw [ih hl' (acc ++ [c])]
    simp

theorem linesAux_no_newline (l : List Char) (hl : '\n' ∉ l) :
    ∀ acc, linesAux acc l = if acc ++ l = [] then [] else [acc ++ l] := by
  induction l with
  | nil => intro acc; simp [linesAux]
  | cons c l ih =>
    intro acc
    rw [List.mem_cons] at hl
    push_neg at hl
    obtain ⟨hc, hl'⟩ := hl
    simp only [linesAux, if_neg (Ne.symm hc)]
    rw [ih hl' (acc ++ [c])]
    simp

theorem rustLinesCore_flat (L : List (List Char))
    (h : ∀ l ∈ L, '\n' ∉ l ∧ l.getLast? ≠ some '\r') :
    rustLinesCore (L.flatMap (fun l => l ++ ['\n'])) = L := by
  induction L with
  | nil => simp [rustLinesCore, linesAux]
  | cons l L ih =>
    obtain ⟨⟨hnl, hcr⟩, hrest⟩ : ('\n' ∉ l ∧ l.getLast? ≠ some '\r') ∧
        ∀ x ∈ L, '\n' ∉ x ∧ x.getLast? ≠ some '\r' := by
      refine ⟨h l (List.mem_cons_self l L), fun x hx => h x (List.mem_cons_of_mem _ hx)⟩
    have : (l :: L).flatMap (fun l => l ++ ['\n']) = l ++ '\n' :: L.flatMap (fun l => l ++ ['\n']) := by
      simp
    rw [rustLinesCore, this, linesAux_append_newline l _ hnl []]
    simp only [List.nil_append]
    rw [stripCr_of_no_cr hcr]
    rw [← rustLinesCore]
    rw [ih hrest]

theorem rustLinesCore_sep (L : List (List Char)) (hne : L ≠ [])
    (h : ∀ l ∈ L, '\n' ∉ l ∧ l.getLast? ≠ some '\r') (hlast : L.getLast? ≠ some []) :
    rustLinesCore (joinSepCore L) = L := by
  induction L with
  | nil => exact absurd rfl hne
  | cons l L ih =>
    cases L with
    | nil =>
      obtain ⟨hnl, _⟩ := h l (List.mem_cons_self l [])
      have hl : l ≠ [] := by
        intro hl; apply hlast; rw [hl]; rfl
      rw [joinSepCore, rustLinesCore, linesAux_no_newline l hnl []]
      simp [hl]
    | cons l2 L2 =>
      obtain ⟨hnl, hcr⟩ := h l (List.mem_cons_self l (l2 :: L2))
      have hjoin : joinSepCore (l :: l2 :: L2) = l ++ '\n' :: joinSepCore (l2 :: L2) := rfl
      rw [hjoin, rustLinesCore, linesAux_append_newline l _ hnl []]
      simp only [List.nil_append]
      rw [stripCr_of_no_cr hcr, ← rustLinesCore]
      rw [ih (by simp) (fun x hx => h x (List.mem_cons_of_mem _ hx))
        (by rw [List.getLast?_cons_cons] at hlast; exact hlast)]

theorem mem_linesAux_no_nl {s : List Char} :
    ∀ {acc l : List Char}, '\n' ∉ acc → l ∈ linesAux acc s → '\n' ∉ l := by
  induction s with
  | nil =>
    intro acc l hacc hl
    rw [linesAux] at hl
    split at hl
    · simp at hl
    · rw [List.mem_singleton] at hl
      exact hl ▸ hacc
  | cons c cs ih =>
    intro acc l hacc hl
    rw [linesAux] at hl
    split at hl
    · rw [List.mem_cons] at hl
      rcases hl with hl | hl
      · subst hl
        unfold stripCr
        split
        · intro hmem
          exact hacc (List.dropLast_subset acc hmem)
        · exact hacc
      · exact ih (by simp) hl
    · refine ih ?_ hl
      intro hmem
      rw [List.mem_append] at hmem
      rcases hmem with hmem | hmem
      · exact hacc hmem
      · rw [List.mem_singleton] at hmem
        rename_i hcne
        exact hcne hmem.symm

/-! ## Lemmas about the expansion loop -/

theorem stripAt_atArg (f : String) : stripAt (("@") ++ f) = some f := by
  have hd : (("@") ++ f).data = '@' :: f.data := by
    rw [String.data_append]; rfl
  unfold stripAt
  rw [hd]
  simp

theorem expandArgs_append (fs : String → Option String) (xs ys : List String) :
    expandArgs fs (xs ++ ys) =
      match expandArgs fs xs, expandArgs fs ys with
      | .ok a, .ok b => .ok (a ++ b)
      | .error e, _ => .error e
      | .ok _, .error e => .error e := by
  induction xs with
  | nil =>
    simp only [List.nil_append, expandArgs]
    cases expandArgs fs ys <;> simp
  | cons a xs ih =>
    simp only [List.cons_append, expandArgs]
    cases hsa : stripAt a with
    | some p =>
      cases hfp : fs p with
      | none => simp [hfp]
      | some c =>
        simp only [hfp, bind, Except.bind, List.append_eq]
        rw [ih]
        cases expandArgs fs xs <;> cases expandArgs fs ys <;> simp
    | none =>
      simp only [bind, Except.bind, List.append_eq]
      rw [ih]
      cases expandArgs fs xs <;> cases expandArgs fs ys <;> simp

theorem expandArgs_noAt (fs : String → Option String) (xs : List String)
    (h : ∀ a ∈ xs, stripAt a = none) : expandArgs fs xs = .ok xs := by
  induction xs with
  | nil => rfl
  | cons a xs ih =>
    rw [expandArgs, h a (List.mem_cons_self a xs),
      ih (fun x hx => h x (List.mem_cons_of_mem _ hx))]
    rfl

theorem expandArgs_single_at (fs : String → Option String) (f c : String)
    (hf : fs f = some c) : expandArgs fs [("@") ++ f] = .ok (rustLines c) := by
  rw [expandArgs]
  simp only [stripAt_atArg, hf, expandArgs, bind, Except.bind, List.append_nil]

theorem expandArgs_fail (fs : String → Option String) (argv : List String) (f : String)
    (hmem : (("@") ++ f) ∈ argv) (hf : fs f = none) :
    expandArgs fs argv = .error ("Failed to read config file") := by
  induction argv with
  | nil => cases hmem
  | cons a rest ih =>
    rw [List.mem_cons] at hmem
    rcases hmem with hmem | hmem
    · subst hmem
      rw [expandArgs]
      simp only [stripAt_atArg, hf]
    · rw [expandArgs]
      cases hsa : stripAt a with
      | some p =>
        cases hfp : fs p with
        | none => simp [hfp]
        | some c => simp [hfp, ih hmem, bind, Except.bind]
      | none => simp [ih hmem, bind, Except.bind]

/-! ## Claim theorems: config-file expansion -/

theorem map_mk_data (M : List String) :
    List.map String.mk (List.map String.data M) = M := by
  rw [List.map_map]
  have h : (String.mk ∘ String.data) = id := funext fun l => rfl
  rw [h, List.map_id]

/-- C10: a config file whose content is N lines each terminated by `'\n'`
expands to exactly those N tokens — the final newline contributes no extra
empty token, and the same lines without the final newline (when the last line
is nonempty) give the same tokens; the empty file gives no tokens; a blank
interior line (an empty string in `L`) is one empty token. -/
theorem trailing_newline_no_extra_token (L : List String)
    (h : ∀ l ∈ L, ('\n') ∉ l.data ∧ l.data.getLast? ≠ some '\r') :
    rustLines ("") = [] ∧
    rustLines (joinLinesNl L) = L ∧
    (L ≠ [] → L.getLast? ≠ some ("") → rustLines (joinLinesSep L) = L) := by
  have hmap : ∀ l ∈ L.map String.data, '\n' ∉ l ∧ l.getLast? ≠ some '\r' := by
    intro l hl
    obtain ⟨x, hx, rfl⟩ := List.mem_map.1 hl
    exact h x hx
  refine ⟨rfl, ?_, ?_⟩
  · have hflat : (joinLinesNl L).data =
        (L.map String.data).flatMap (fun l => l ++ ['\n']) := by
      show (L.flatMap fun l => l.data ++ ['\n']) = _
      rw [List.flatMap_map]
    rw [rustLines, hflat, rustLinesCore_flat _ hmap, map_mk_data]
  · intro hne hlast
    have hne' : L.map String.data ≠ [] := by
      simpa using hne
    have hlast' : (L.map String.data).getLast? ≠ some [] := by
      rw [List.getLast?_map]
      intro hcon
      obtain ⟨x, hx1, hx2⟩ := Option.map_eq_some'.1 hcon
      apply hlast
      rw [hx1]
      have : x = ("") := by
        cases x with
        | mk d => cases hx2; rfl
      rw [this]
    have hsep : (joinLinesSep L).data = joinSepCore (L.map String.data) := rfl
    rw [rustLines, hsep, rustLinesCore_sep _ hne' hmap hlast', map_mk_data]

theorem trailing_newline_no_extra_token_witness :
    rustLines ("") = [] ∧
    rustLines (joinLinesNl ["--a", "", "--b"]) = ["--a", "", "--b"] ∧
    ((["--a", "", "--b"] : List String) ≠ [] →
      (["--a", "", "--b"] : List String).getLast? ≠ some ("") →
      rustLines (joinLinesSep ["--a", "", "--b"]) = ["--a", "", "--b"]) :=
  trailing_newline_no_extra_token ["--a", "", "--b"] (by decide)

/-- C8: each line of a config file becomes exactly one argument token: the
`@file` argument expands to precisely the lines of the file, no token contains
a newline (no further splitting), `--foo=bar` on one line stays a single
token, and a flag and value on two lines become two tokens. -/
theorem one_token_per_line (fs : String → Option String) (f c : String)
    (hf : fs f = some c) :
    expandArgs fs [("@") ++ f] = .ok (rustLines c) ∧
    (∀ l ∈ rustLines c, ('\n') ∉ l.data) ∧
    rustLines ("--foo=bar") = ["--foo=bar"] ∧
    rustLines ("--foo\nbar") = ["--foo", "bar"] := by
  refine ⟨expandArgs_single_at fs f c hf, ?_, by decide, by decide⟩
  intro l hl
  obtain ⟨l', hl', rfl⟩ := List.mem_map.1 hl
  exact mem_linesAux_no_nl (by simp) hl'

theorem one_token_per_line_witness :
    expandArgs demoFsSplice [("@") ++ ("conf")] = .ok (rustLines ("--store\n/s")) :=
  (one_token_per_line demoFsSplice ("conf") ("--store\n/s") (by decide)).1

/-- C9: config-file indirection is one level deep: the expansion of `@file`
is exactly the literal lines of the file, and a line that itself starts with
`'@'` is inserted as a literal token — in the concrete part, `outer` contains
the line `@inner` and the readable file `inner` is not consulted. -/
theorem expansion_not_recursive :
    (∀ (fs : String → Option String) (f c : String), fs f = some c →
      expandArgs fs [("@") ++ f] = .ok (rustLines c)) ∧
    expandArgs demoFsNested [("bin" : String), ("@") ++ ("outer")] =
      .ok [("bin" : String), ("@inner" : String), ("--x" : String)] :=
  ⟨fun fs f c hf => expandArgs_single_at fs f c hf, by decide⟩

theorem expansion_not_recursive_witness :
    expandArgs demoFsNested [("@") ++ ("outer")] = .ok (rustLines ("@inner\n--x")) :=
  expansion_not_recursive.1 demoFsNested ("outer") ("@inner\n--x") (by decide)

/-- C3: an `@file` argument naming a readable file expands to exactly the
lines of the file (one token per line, in file order), spliced at the
position of the `@file` argument; all other arguments pass through unchanged
in their original relative order. -/
theorem config_expansion_splices_lines (fs : String → Option String)
    (pre post : List String) (f c : String) (hf : fs f = some c)
    (hpre : ∀ a ∈ pre, stripAt a = none) (hpost : ∀ a ∈ post, stripAt a = none) :
    expandArgs fs (pre ++ ((("@") ++ f) :: post)) = .ok (pre ++ rustLines c ++ post) := by
  have h1 : expandArgs fs pre = .ok pre := expandArgs_noAt fs pre hpre
  have h2 : expandArgs fs post = .ok post := expandArgs_noAt fs post hpost
  have h3 : expandArgs fs [("@") ++ f] = .ok (rustLines c) :=
    expandArgs_single_at fs f c hf
  have h4 : ((("@") ++ f) :: post) = [("@") ++ f] ++ post := rfl
  rw [h4, expandArgs_append, expandArgs_append, h1, h2, h3]
  simp [List.append_assoc]

theorem config_expansion_splices_lines_witness :
    expandArgs demoFsSplice (["drawbridge"] ++ ((("@") ++ ("conf")) :: ["--cert", "/c"])) =
      .ok (["drawbridge"] ++ rustLines ("--store\n/s") ++ ["--cert", "/c"]) :=
  config_expansion_splices_lines demoFsSplice ["drawbridge"] ["--cert", "/c"]
    ("conf") ("--store\n/s") (by decide) (by decide) (by decide)

/-! ## Claim theorems: startup pipeline -/

theorem configReads_only_reads (fs : String → Option String) (argv : List String) :
    ∀ e ∈ configReads fs argv, ∃ p, e = Effect.readConfig p := by
  induction argv with
  | nil => intro e he; cases he
  | cons a rest ih =>
    intro e he
    rw [configReads] at he
    split at he
    · exact ih e he
    · rename_i p hsa
      rw [List.mem_cons] at he
      rcases he with he | he
      · exact ⟨p, he⟩
      · split at he
        · exact ih e he
        · cases he

/-- C7: if any process argument `@file` names an unreadable file, the loader
fails with the contextual read error, `main` returns that error (the process
prints it and exits with non-zero status), and neither argument parsing nor
any later step (file opening, listener bind) is reached. -/
theorem unreadable_config_file_aborts (w : World) (argv : List String) (f : String)
    (hmem : (("@") ++ f) ∈ argv) (hf : w.fs f = none) :
    (runMain w argv).2 = .error ("Failed to read config file") ∧
    Effect.parseStep ∉ (runMain w argv).1 ∧
    (∀ wh p, Effect.openFile wh p ∉ (runMain w argv).1) ∧
    (∀ ad, Effect.bindListener ad ∉ (runMain w argv).1) := by
  have hexp := expandArgs_fail w.fs argv f hmem hf
  have hrm : runMain w argv = (configReads w.fs argv, .error ("Failed to read config file")) := by
    rw [runMain, hexp]
  rw [hrm]
  refine ⟨rfl, ?_, ?_, ?_⟩
  · intro hin
    obtain ⟨p, hp⟩ := configReads_only_reads w.fs argv _ hin
    cases hp
  · intro wh p hin
    obtain ⟨q, hq⟩ := configReads_only_reads w.fs argv _ hin
    cases hq
  · intro ad hin
    obtain ⟨q, hq⟩ := configReads_only_reads w.fs argv _ hin
    cases hq

theorem unreadable_config_file_aborts_witness :
    (runMain demoWorldNoFiles [("drawbridge" : String), ("@") ++ ("conf")]).2 =
      .error ("Failed to read config file") :=
  (unreadable_config_file_aborts demoWorldNoFiles
    [("drawbridge" : String), ("@") ++ ("conf")] ("conf") (by decide) rfl).1

/-! ## Lemmas about the option scanner -/

theorem splitEq_none {cs : List Char} (h : (splitEq cs).2 = none) :
    (splitEq cs).1 = cs := by
  induction cs with
  | nil => rfl
  | cons c cs ih =>
    by_cases hc : c = '='
    · rw [splitEq, if_pos hc] at h
      cases h
    · have h2 : (splitEq cs).2 = none := by
        rw [splitEq, if_neg hc] at h
        exact h
      rw [splitEq, if_neg hc]
      show c :: (splitEq cs).1 = c :: cs
      rw [ih h2]

theorem splitEq_some {cs b : List Char} (h : (splitEq cs).2 = some b) :
    cs = (splitEq cs).1 ++ '=' :: b := by
  induction cs with
  | nil => cases h
  | cons c cs ih =>
    by_cases hc : c = '='
    · have hb : b = cs := by
        rw [splitEq, if_pos hc] at h
        injection h with h'
        exact h'.symm
      subst hb
      rw [splitEq, if_pos hc]
      show c :: b = [] ++ '=' :: b
      rw [hc]
      rfl
    · have h2 : (splitEq cs).2 = some b := by
        rw [splitEq, if_neg hc] at h
        exact h
      rw [splitEq, if_neg hc]
      show c :: cs = (c :: (splitEq cs).1) ++ '=' :: b
      rw [List.cons_append, ← ih h2]

theorem longFlag_sep_form {t nm : String} (h : longFlag t = some (nm, none)) :
    t = ("--") ++ nm := by
  cases ht : t.data with
  | nil => simp only [longFlag, ht] at h; exact Option.noConfusion h
  | cons c1 rest1 =>
    cases rest1 with
    | nil => simp only [longFlag, ht] at h; exact Option.noConfusion h
    | cons c2 rest =>
      simp only [longFlag, ht] at h
      by_cases hc : c1 = '-' ∧ c2 = '-'
      · rw [if_pos hc] at h
        injection h with h'
        rw [Prod.mk.injEq] at h'
        obtain ⟨hnm, hv⟩ := h'
        have h2 : (splitEq rest).2 = none := by
          cases hsplit : (splitEq rest).2 with
          | none => rfl
          | some b => rw [hsplit] at hv; cases hv
        have h1 : (splitEq rest).1 = rest := splitEq_none h2
        apply String.ext
        rw [ht, String.data_append, ← hnm, h1]
        rw [hc.1, hc.2]
        rfl
      · rw [if_neg hc] at h
        cases h

theorem longFlag_inline_form {t nm v : String} (h : longFlag t = some (nm, some v)) :
    ((("--") ++ nm) ++ ("=")).data <+: t.data := by
  cases ht : t.data with
  | nil => simp only [longFlag, ht] at h; exact Option.noConfusion h
  | cons c1 rest1 =>
    cases rest1 with
    | nil => simp only [longFlag, ht] at h; exact Option.noConfusion h
    | cons c2 rest =>
      simp only [longFlag, ht] at h
      by_cases hc : c1 = '-' ∧ c2 = '-'
      · rw [if_pos hc] at h
        injection h with h'
        rw [Prod.mk.injEq] at h'
        obtain ⟨hnm, hv⟩ := h'
        obtain ⟨b, hb, hbv⟩ : ∃ b, (splitEq rest).2 = some b ∧ String.mk b = v := by
          cases hsplit : (splitEq rest).2 with
          | none => rw [hsplit] at hv; cases hv
          | some b =>
            rw [hsplit] at hv
            injection hv with hv'
            exact ⟨b, rfl, hv'⟩
        have hrest : rest = (splitEq rest).1 ++ '=' :: b := splitEq_some hb
        refine ⟨b, ?_⟩
        conv_rhs => rw [hrest]
        rw [String.data_append, String.data_append, ← hnm, hc.1, hc.2]
        simp
      · rw [if_neg hc] at h
        exact Option.noConfusion h

theorem collectOpts_preserve (f : String) (toks : List String) (o : RawOpts) :
    (∀ t ∈ toks, ¬ introFlag f t) → ∀ r, collectOpts toks o = .ok r → r f = o f := by
  induction toks, o using collectOpts.induct with
  | case1 o =>
    intro _ r hc
    rw [collectOpts] at hc
    cases hc
    rfl
  | case2 t rest o hfl =>
    intro _ r hc
    simp only [collectOpts, hfl] at hc
    exact Except.noConfusion hc
  | case3 t rest o nm v hfl hk ih =>
    intro h r hc
    simp only [collectOpts, hfl, if_pos hk] at hc
    have hne : f ≠ nm := by
      intro he
      apply h t (List.mem_cons_self t rest)
      rw [he]
      exact Or.inr (longFlag_inline_form hfl)
    rw [ih (fun x hx => h x (List.mem_cons_of_mem _ hx)) r hc, setOpt, if_neg hne]
  | case4 t rest o nm v hfl hk =>
    intro _ r hc
    simp only [collectOpts, hfl, if_neg hk] at hc
    exact Except.noConfusion hc
  | case5 t o nm hfl hk =>
    intro _ r hc
    simp only [collectOpts, hfl, if_pos hk] at hc
    exact Except.noConfusion hc
  | case6 t o nm hfl hk a rest hhead =>
    intro _ r hc
    simp only [collectOpts, hfl, if_pos hk, if_pos hhead] at hc
    exact Except.noConfusion hc
  | case7 t o nm hfl hk a rest hhead ih =>
    intro h r hc
    simp only [collectOpts, hfl, if_pos hk, if_neg hhead] at hc
    have hne : f ≠ nm := by
      intro he
      apply h t (List.mem_cons_self t (a :: rest))
      rw [he]
      exact Or.inl (longFlag_sep_form hfl)
    rw [ih (fun x hx => h x (List.mem_cons_of_mem _ (List.mem_cons_of_mem _ hx))) r hc,
      setOpt, if_neg hne]
  | case8 t rest o nm hfl hk =>
    intro _ r hc
    simp only [collectOpts, hfl, if_neg hk] at hc
    exact Except.noConfusion hc

/-- C4: an expanded argument list that omits any one of the required options
(`--store`, `--cert`, `--key`, `--ca`, `--oidc-label`, `--oidc-issuer`,
`--oidc-client`) makes the parser fail with a usage error — so no `Args`
value exists — and `main` run on any argument vector expanding to that list
returns the error (non-zero exit) without opening any file or binding any
listener: no partial configuration reaches a downstream step. -/
theorem missing_required_flag_fails (toks : List String) (f : String)
    (hreq : f ∈ requiredFlags) (h : ∀ t ∈ toks, ¬ introFlag f t) :
    (∃ e, parseArgs toks = .error e) ∧
    (∀ (w : World) (argv : List String), expandArgs w.fs argv = .ok toks →
      (∃ e, (runMain w argv).2 = .error e) ∧
      (∀ wh p, Effect.openFile wh p ∉ (runMain w argv).1) ∧
      (∀ ad, Effect.bindListener ad ∉ (runMain w argv).1)) := by
  have hparse : ∃ e, parseArgs toks = .error e := by
    rw [parseArgs]
    cases hcol : collectOpts toks.tail emptyOpts with
    | error e => exact ⟨e, rfl⟩
    | ok r =>
      show ∃ e, finalize r = Except.error e
      have hr : r f = none :=
        collectOpts_preserve f toks.tail emptyOpts
          (fun t ht => h t (List.tail_subset toks ht)) r hcol
      have hmiss : f ∈ missingRequired r := by
        rw [missingRequired, List.mem_filter]
        exact ⟨hreq, by simp [hr]⟩
      have hne : missingRequired r ≠ [] := List.ne_nil_of_mem hmiss
      unfold finalize
      rw [if_pos hne]
      exact ⟨_, rfl⟩
  refine ⟨hparse, ?_⟩
  intro w argv hexp
  obtain ⟨e, he⟩ := hparse
  have hrm : runMain w argv = (configReads w.fs argv ++ [Effect.parseStep], .error e) := by
    rw [runMain, hexp]
    simp only [he]
  rw [hrm]
  refine ⟨⟨e, rfl⟩, ?_, ?_⟩
  · intro wh p hin
    rw [List.mem_append] at hin
    rcases hin with hin | hin
    · obtain ⟨q, hq⟩ := configReads_only_reads w.fs argv _ hin
      cases hq
    · rw [List.mem_singleton] at hin
      cases hin
  · intro ad hin
    rw [List.mem_append] at hin
    rcases hin with hin | hin
    · obtain ⟨q, hq⟩ := configReads_only_reads w.fs argv _ hin
      cases hq
    · rw [List.mem_singleton] at hin
      cases hin

theorem missing_required_flag_fails_witness :
    ∃ e, parseArgs [("drawbridge" : String)] = .error e :=
  (missing_required_flag_fails [("drawbridge" : String)] ("store")
    (by decide) (by decide)).1

/-- C5: when the expanded argument list supplies no `--addr` option, a
successful parse yields exactly the default bind address: the unspecified
IPv4 address `0.0.0.0` on port `8080`. -/
theorem absent_addr_defaults (toks : List String) (a : Args)
    (h : ∀ t ∈ toks, ¬ introFlag ("addr") t)
    (hp : parseArgs toks = .ok a) :
    a.addr = SockAddr.mk (0, 0, 0, 0) 8080 := by
  rw [parseArgs] at hp
  cases hcol : collectOpts toks.tail emptyOpts with
  | error e =>
    rw [hcol] at hp
    exact Except.noConfusion hp
  | ok r =>
    rw [hcol] at hp
    have hp2 : finalize r = Except.ok a := hp
    have hr : r ("addr") = none :=
      collectOpts_preserve ("addr") toks.tail emptyOpts
        (fun t ht => h t (List.tail_subset toks ht)) r hcol
    unfold finalize at hp2
    split at hp2
    · exact Except.noConfusion hp2
    · split at hp2 <;> first
        | (simp only [hr] at hp2; cases hp2; rfl)
        | exact Except.noConfusion hp2

theorem absent_addr_defaults_witness :
    (Args.mk defaultAddr ("/s") ("/c") ("/k") ("/a") ("l") ("https://i") ("c")
      none).addr = SockAddr.mk (0, 0, 0, 0) 8080 :=
  absent_addr_defaults demoToks
    (Args.mk defaultAddr ("/s") ("/c") ("/k") ("/a") ("l") ("https://i") ("c") none)
    (by decide) (by decide)

theorem bind_not_mem_reads_append (fs : String → Option String) (argv : List String)
    (l : List Effect) (hl : ∀ ad, Effect.bindListener ad ∉ l) (ad : SockAddr) :
    Effect.bindListener ad ∉ configReads fs argv ++ l := by
  intro hin
  rw [List.mem_append] at hin
  rcases hin with hin | hin
  · obtain ⟨q, hq⟩ := configReads_only_reads fs argv _ hin
    cases hq
  · exact hl ad hin

/-- C6: the three TLS material files are opened with three pairwise distinct
context errors, each naming the file that failed; in particular an unopenable
certificate file makes `main` return the error naming the server certificate
file (non-zero exit) with no listener ever bound, and likewise for the key
and CA files. -/
theorem tls_file_open_errors_distinct (w : World) (argv toks : List String) (a : Args)
    (hexp : expandArgs w.fs argv = .ok toks) (hp : parseArgs toks = .ok a) :
    (w.openOk a.cert = false →
      (runMain w argv).2 = .error ("Failed to open server certificate file") ∧
      ∀ ad, Effect.bindListener ad ∉ (runMain w argv).1) ∧
    (w.openOk a.cert = true → w.openOk a.key = false →
      (runMain w argv).2 = .error ("Failed to open server key file") ∧
      ∀ ad, Effect.bindListener ad ∉ (runMain w argv).1) ∧
    (w.openOk a.cert = true → w.openOk a.key = true → w.openOk a.ca = false →
      (runMain w argv).2 = .error ("Failed to open CA certificate file") ∧
      ∀ ad, Effect.bindListener ad ∉ (runMain w argv).1) ∧
    (("Failed to open server certificate file" : String) ≠
        ("Failed to open server key file") ∧
      ("Failed to open server certificate file" : String) ≠
        ("Failed to open CA certificate file") ∧
      ("Failed to open server key file" : String) ≠
        ("Failed to open CA certificate file")) := by
  refine ⟨?_, ?_, ?_, by decide⟩
  · intro hcert
    have hrm : runMain w argv =
        (configReads w.fs argv ++
          [Effect.parseStep, Effect.openFile ("server certificate") a.cert],
         .error ("Failed to open server certificate file")) := by
      rw [runMain, hexp]
      simp only [hp, hcert, if_pos]
    rw [hrm]
    refine ⟨rfl, ?_⟩
    intro ad
    apply bind_not_mem_reads_append
    intro ad2
    simp
  · intro hcert hkey
    have hrm : runMain w argv =
        (configReads w.fs argv ++
          [Effect.parseStep, Effect.openFile ("server certificate") a.cert,
           Effect.openFile ("server key") a.key],
         .error ("Failed to open server key file")) := by
      rw [runMain, hexp]
      simp only [hp, hcert, hkey]
      simp [List.append_assoc]
    rw [hrm]
    refine ⟨rfl, ?_⟩
    intro ad
    apply bind_not_mem_reads_append
    intro ad2
    simp
  · intro hcert hkey hca
    have hrm : runMain w argv =
        (configReads w.fs argv ++
          [Effect.parseStep, Effect.openFile ("server certificate") a.cert,
           Effect.openFile ("server key") a.key,
           Effect.openFile ("CA certificate") a.ca],
         .error ("Failed to open CA certificate file")) := by
      rw [runMain, hexp]
      simp only [hp, hcert, hkey, hca]
      simp [List.append_assoc]
    rw [hrm]
    refine ⟨rfl, ?_⟩
    intro ad
    apply bind_not_mem_reads_append
    intro ad2
    simp

theorem tls_file_open_errors_distinct_witness :
    (runMain demoWorldNoFiles demoToks).2 =
      .error ("Failed to open server certificate file") :=
  ((tls_file_open_errors_distinct demoWorldNoFiles demoToks demoToks
    (Args.mk defaultAddr ("/s") ("/c") ("/k") ("/a") ("l") ("https://i") ("c") none)
    (by decide) (by decide)).1 rfl).1

/-! ## Claim theorems: the acceptor loop -/

theorem handler_filter (l : List (Nat × Except String Conn)) :
    (l.flatMap (fun p => connEvents p.1 p.2)).filter isHandlerEv =
      (l.filter (fun p => p.2.isOk)).flatMap
        (fun p => [Event.handlerBegin p.1, Event.handlerEnd p.1]) := by
  induction l with
  | nil => rfl
  | cons p l ih =>
    rw [List.flatMap_cons, List.filter_append, ih, List.filter_cons]
    cases hp : p.2 with
    | error e => simp [connEvents, isHandlerEv, Except.isOk, Except.toBool, hp]
    | ok c =>
      cases hc : c.handleResult <;>
        simp [connEvents, isHandlerEv, Except.isOk, Except.toBool, hp, hc]

/-- C1: the acceptor loop runs with a concurrency limit of exactly one
(`for_each_concurrent(Some(1), ...)`), so its handler invocations are fully
serialized in acceptance order: the subsequence of handler events in the loop
trace is precisely `begin 0, end 0, begin 1, end 1, ...` over the
successfully accepted connections in acceptance order — every invocation ends
before the next begins, with no reordering and no interleaving. -/
theorem acceptor_handler_events_sequential (items : List (Except String Conn)) :
    (acceptorLoop items).filter isHandlerEv =
      ((items.enum).filter (fun p => p.2.isOk)).flatMap
        (fun p => [Event.handlerBegin p.1, Event.handlerEnd p.1]) :=
  handler_filter items.enum

/-- C2: every per-item failure after the listener is bound — an accept-time
failure (logged via its `failed to initialize connection` context) or an
error returned by the handler (logged with its message) — produces an
error-level log entry, and the loop still reaches every item of the stream
(an `acceptItem` event for every index), never yielding a process-level
error: `acceptorLoop` returns only a trace, and `runMain` ends in `.ok` once
the loop is entered. -/
theorem acceptor_errors_logged_loop_continues (items : List (Except String Conn))
    (i : Nat) (_hi : i < items.length) :
    (∀ m, items[i]? = some (Except.error m) →
      Event.logError ("failed to handle request: failed to initialize connection")
        ∈ acceptorLoop items) ∧
    (∀ c m, items[i]? = some (Except.ok c) → c.handleResult = Except.error m →
      Event.logError (("failed to handle request: ") ++ m) ∈ acceptorLoop items) ∧
    (∀ j, j < items.length → Event.acceptItem j ∈ acceptorLoop items) := by
  refine ⟨?_, ?_, ?_⟩
  · intro m hm
    rw [acceptorLoop, List.mem_flatMap]
    refine ⟨(i, Except.error m), List.mem_enum_iff_getElem?.2 hm, ?_⟩
    simp [connEvents]
  · intro c m hm hres
    rw [acceptorLoop, List.mem_flatMap]
    refine ⟨(i, Except.ok c), List.mem_enum_iff_getElem?.2 hm, ?_⟩
    simp [connEvents, hres]
  · intro j hj
    rw [acceptorLoop, List.mem_flatMap]
    refine ⟨(j, items[j]),
      List.mem_enum_iff_getElem?.2 (List.getElem?_eq_getElem hj), ?_⟩
    cases items[j] <;> simp [connEvents]

theorem acceptor_errors_logged_loop_continues_witness :
    Event.logError ("failed to handle request: failed to initialize connection")
      ∈ acceptorLoop demoItems :=
  (acceptor_errors_logged_loop_continues demoItems 0 (by decide)).1 ("x") rfl

end Drawbridge
